import Mathlib

/-
Verification of compcomp.py, a compression-benchmark harness.

The script's operations are embedded shallowly:
  * Python `str` operations (replace, containment, startswith, split, os.path.join)
    are modelled executably over the character list of a Lean `String`;
  * the static tool table `comps` is transcribed entry for entry, with the
    Python list comprehensions expanded;
  * file-system and subprocess effects (os.stat, os.unlink, subprocess.run,
    time.monotonic) are modelled by explicit per-invocation environments that
    record what each effectful call observed or raised;
  * `float` statistics are modelled over ℚ, with Python's
    `float("inf")` / `float("-inf")` ratio seeds represented as `none`
    (no finite ratio accumulated yet).
-/

namespace Compcomp

/-- Python `s.replace(pat, rep)` on character lists: scan left to right, at each
position replace the leftmost occurrence of `pat` and continue after it.
Structural recursion on a fuel that `pyReplace` instantiates with the length of
the scanned list, which suffices because every step consumes at least one
character. (For an empty `pat` this returns the input unchanged; the script
only ever replaces the nonempty literals FILE_OR_DIR, FILE and BASE.) -/
def replaceFuel (pat rep : List Char) : Nat → List Char → List Char
  | _, [] => []
  | 0, l => l
  | fuel + 1, c :: rest =>
    if pat ≠ [] ∧ pat = (c :: rest).take pat.length then
      rep ++ replaceFuel pat rep fuel ((c :: rest).drop pat.length)
    else
      c :: replaceFuel pat rep fuel rest

/-- Python `s.replace(pat, rep)`. -/
def pyReplace (s pat rep : String) : String :=
  String.mk (replaceFuel pat.data rep.data s.data.length s.data)

/-- Python `pat in s` (substring containment) on character lists. -/
def containsL (pat : List Char) : List Char → Bool
  | [] => decide (pat = [])
  | c :: rest => decide (pat = (c :: rest).take pat.length) || containsL pat rest

/-- Python `pat in s` (substring containment). -/
def pyContains (s pat : String) : Bool :=
  containsL pat.data s.data

/-- Python `s.startswith(p)`. -/
def pyStartsWith (s p : String) : Bool :=
  decide (p.data = s.data.take p.data.length)

/-- Python `s[0] == c` for the head character (False on the empty string). -/
def headIs (s : String) (c : Char) : Bool :=
  match s.data with
  | [] => false
  | a :: _ => decide (a = c)

/-- Python `s.split(sep)` for a one-character separator, on character lists. -/
def splitCh (sep : Char) : List Char → List (List Char)
  | [] => [[]]
  | c :: rest =>
    match splitCh sep rest with
    | [] => [[c]]
    | h :: t => if c = sep then [] :: h :: t else (c :: h) :: t

/-- Python `s.split(sep)` for a one-character separator. -/
def pySplit (s : String) (sep : Char) : List String :=
  (splitCh sep s.data).map String.mk

/-- Python `os.path.join(a, b)` on POSIX, for the two-argument case the script
uses: an absolute `b` wins; otherwise `b` is appended to `a` with a single
separating slash. -/
def pyJoin (a b : String) : String :=
  if pyStartsWith b "/" then b
  else if a = "" then b
  else if a.data.getLast? = some '/' then a ++ b
  else a ++ "/" ++ b

/-- One entry of the tool table: `(key, suffix, command)` in the source. -/
structure Comp where
  key : String
  suffix : String
  command : List String
deriving DecidableEq

/-- The static tool table `comps` (source lines 18-56), with the Python list
comprehensions over the level lists expanded in order. -/
def comps : List Comp := [
  ⟨"cp", ".copy", ["cp", "FILE", "FILE.copy"]⟩,
  ⟨"gzip-1", ".gz", ["gzip", "--keep", "-1", "FILE"]⟩,
  ⟨"gzip-3", ".gz", ["gzip", "--keep", "-3", "FILE"]⟩,
  ⟨"gzip-6", ".gz", ["gzip", "--keep", "-6", "FILE"]⟩,
  ⟨"gzip-9", ".gz", ["gzip", "--keep", "-9", "FILE"]⟩,
  ⟨"zopfli-i15", ".gz", ["zopfli", "--i15", "FILE"]⟩,
  ⟨"zopfli-i50", ".gz", ["zopfli", "--i50", "FILE"]⟩,
  ⟨"bz2-4", ".bz2", ["bzip2", "--keep", "-4", "FILE"]⟩,
  ⟨"bz2-6", ".bz2", ["bzip2", "--keep", "-6", "FILE"]⟩,
  ⟨"bz2-9", ".bz2", ["bzip2", "--keep", "-9", "FILE"]⟩,
  ⟨"xz-1", ".xz", ["xz", "--keep", "-1", "FILE"]⟩,
  ⟨"xz-3", ".xz", ["xz", "--keep", "-3", "FILE"]⟩,
  ⟨"xz-6", ".xz", ["xz", "--keep", "-6", "FILE"]⟩,
  ⟨"xz-9", ".xz", ["xz", "--keep", "-9", "FILE"]⟩,
  ⟨"lzma-6", ".lzma", ["lzma", "--keep", "-6", "FILE"]⟩,
  ⟨"lzma-9", ".lzma", ["lzma", "--keep", "-9", "FILE"]⟩,
  ⟨"zstd-1", ".zst", ["zstd", "--quiet", "--keep", "-1", "FILE"]⟩,
  ⟨"zstd-3", ".zst", ["zstd", "--quiet", "--keep", "-3", "FILE"]⟩,
  ⟨"zstd-14", ".zst", ["zstd", "--quiet", "--keep", "-14", "FILE"]⟩,
  ⟨"zstd-16", ".zst", ["zstd", "--quiet", "--keep", "-16", "FILE"]⟩,
  ⟨"zstd-19", ".zst", ["zstd", "--quiet", "--keep", "-19", "FILE"]⟩,
  ⟨"lz4-1", ".lz4", ["lz4", "--quiet", "--keep", "-1", "FILE", "FILE.lz4"]⟩,
  ⟨"lz4-4", ".lz4", ["lz4", "--quiet", "--keep", "-4", "FILE", "FILE.lz4"]⟩,
  ⟨"lz4-9", ".lz4", ["lz4", "--quiet", "--keep", "-9", "FILE", "FILE.lz4"]⟩,
  ⟨"lz4-12", ".lz4", ["lz4", "--quiet", "--keep", "-12", "FILE", "FILE.lz4"]⟩,
  ⟨"lzop-1", ".lzo", ["lzop", "--keep", "-1", "FILE"]⟩,
  ⟨"lzop-3", ".lzo", ["lzop", "--keep", "-3", "FILE"]⟩,
  ⟨"lzop-7", ".lzo", ["lzop", "--keep", "-7", "FILE"]⟩,
  ⟨"lzop-9", ".lzo", ["lzop", "--keep", "-9", "FILE"]⟩,
  ⟨"br-1", ".br", ["brotli", "--keep", "-1", "FILE"]⟩,
  ⟨"br-3", ".br", ["brotli", "--keep", "-3", "FILE"]⟩,
  ⟨"br-9", ".br", ["brotli", "--keep", "-9", "FILE"]⟩,
  ⟨"br-best", ".br", ["brotli", "--keep", "--best", "FILE"]⟩,
  ⟨"7z-ultra", ".7z", ["7z", "a", "-bd", "-bb0", "-bso0", "-t7z", "-m0=lzma",
    "-mx=9", "-mfb=64", "-md=32m", "-ms=on", "BASE.7z", "FILE_OR_DIR"]⟩,
  ⟨"zip", ".zip", ["zip", "--quiet", "BASE.zip", "FILE"]⟩,
  ⟨"rar", ".rar", ["rar", "a", "-inul", "BASE.zip", "FILE"]⟩,
  ⟨"arj-m1", ".arj", ["arj", "a", "-i", "-m1", "BASE.arj", "FILE"]⟩,
  ⟨"arj-jm", ".arj", ["arj", "a", "-i", "-jm", "BASE.arj", "FILE"]⟩,
  ⟨"lrzip-1-bz2", ".lrz",
    ["lrzip", "--quiet", "-p", "1", "-L", "1", "-N", "0", "--bzip2", "FILE"]⟩,
  ⟨"lrzip-9-bz2", ".lrz",
    ["lrzip", "--quiet", "-p", "1", "-L", "9", "-N", "0", "--bzip2", "FILE"]⟩,
  ⟨"lrzip-1-lzo", ".lrz",
    ["lrzip", "--quiet", "-p", "1", "-L", "1", "-N", "0", "--lzo", "FILE"]⟩,
  ⟨"lrzip-9-lzo", ".lrz",
    ["lrzip", "--quiet", "-p", "1", "-L", "9", "-N", "0", "--lzo", "FILE"]⟩,
  ⟨"lrzip-1-zpaq", ".lrz",
    ["lrzip", "--quiet", "-p", "1", "-L", "1", "-N", "0", "--zpaq", "FILE"]⟩,
  ⟨"lrzip-9-zpaq", ".lrz",
    ["lrzip", "--quiet", "-p", "1", "-L", "9", "-N", "0", "--zpaq", "FILE"]⟩,
  ⟨"snappy-1", ".sz", ["snzip", "-k", "FILE"]⟩,
  ⟨"snappy-6", ".sz", ["snzip", "-k", "FILE"]⟩,
  ⟨"snappy-9", ".sz", ["snzip", "-k", "FILE"]⟩,
  ⟨"dact", ".dct", ["dact", "FILE"]⟩]

/-- The argument-substitution step of `run_one` (source line 79): in each
argument replace FILE_OR_DIR first, then FILE, with the filename. -/
def substFile (filename : String) (command : List String) : List String :=
  command.map (fun arg => pyReplace (pyReplace arg "FILE_OR_DIR" filename) "FILE" filename)

/-- The command `run_one` executes, together with the output path it expects
the tool to create. -/
structure BuiltRun where
  command : List String
  output : String
deriving DecidableEq

/-- The pure part of `run_one` (source lines 76-85): substitute the filename
into the argument template, and compute the expected output path, which moves
to `filename_output_key + suffix` when some substituted argument mentions BASE
(in which case BASE is also replaced by `filename_output_key`). -/
def runOneBuild (filename : String) (c : Comp) : BuiltRun :=
  let command := substFile filename c.command
  if command.any (fun arg => pyContains arg "BASE") then
    { command := command.map (fun arg => pyReplace arg "BASE" (filename ++ "_output_" ++ c.key)),
      output := filename ++ "_output_" ++ c.key ++ c.suffix }
  else
    { command := command, output := filename ++ c.suffix }

/-- Spec-side rendering of the same templating, following the specification's
words: replace, in each argument string, first FILE_OR_DIR and then FILE with
the filename (spelt as explicit recursion over the argument list); if no
argument of the resulting command contains BASE the expected output is
`filename + suffix`, otherwise BASE is replaced by `filename_output_key` and
the expected output is `filename_output_key + suffix`. -/
def substFileSpec (filename : String) : List String → List String
  | [] => []
  | arg :: rest =>
    pyReplace (pyReplace arg "FILE_OR_DIR" filename) "FILE" filename :: substFileSpec filename rest

/-- Spec-side rendering of `run_one`'s command construction (see
`substFileSpec`). -/
def runOneBuildSpec (filename : String) (c : Comp) : BuiltRun :=
  let args := substFileSpec filename c.command
  if args.any (fun arg => pyContains arg "BASE") then
    { command := args.map (fun arg => pyReplace arg "BASE" (filename ++ "_output_" ++ c.key)),
      output := filename ++ "_output_" ++ c.key ++ c.suffix }
  else
    { command := args, output := filename ++ c.suffix }

/-- Outcome of the `subprocess.run` call in `run_one`: the process completed
(with some exit status, which `run_one` ignores), the binary was missing
(`FileNotFoundError`), or some other exception was raised (and propagates). -/
inductive SubRes where
  | completed (exitCode : Int)
  | fileNotFound
  | raised (msg : String)
deriving DecidableEq

/-- Outcome of the `os.unlink(output)` call before the run: success, the file
did not exist (`FileNotFoundError`, swallowed), or another exception. -/
inductive UnlinkRes where
  | ok
  | fileNotFound
  | raised (msg : String)
deriving DecidableEq

/-- What the effectful calls inside one `run_one` invocation observe. -/
structure RunEnv where
  preUnlink : UnlinkRes
  subprocess : SubRes
deriving DecidableEq

/-- `run_one` (source lines 76-103): build the command, best-effort-unlink the
stale expected output (only `FileNotFoundError` is swallowed there), run the
subprocess; `FileNotFoundError` from `subprocess.run` (program not installed)
yields `None`, any other exception propagates (`Except.error`), and otherwise
the expected output path is returned. -/
def runOne (filename : String) (c : Comp) (env : RunEnv) : Except String (Option String) :=
  let built := runOneBuild filename c
  match env.preUnlink, env.subprocess with
  | .raised e, _ => .error e
  | _, .raised e => .error e
  | _, .fileNotFound => .ok none
  | _, .completed _ => .ok (some built.output)

/-- One `(time, input_size, output_size)` triple recorded by `test_file`. -/
structure Result where
  time : ℚ
  inSize : Nat
  outSize : Nat
deriving DecidableEq

/-- What the effectful calls of one loop iteration of `test_file` observe:
the `os.stat(filename).st_size` before the run, the two `time.monotonic()`
readings around `run_one`, the `run_one` effects, the `os.stat(output)`
result (`none` = `FileNotFoundError`), and whether `os.unlink(output)`
succeeded (`false` = `FileNotFoundError`). -/
structure ToolEnv where
  statInput : Nat
  t0 : ℚ
  t1 : ℚ
  run : RunEnv
  statOutput : Option Nat
  unlink : Bool
deriving DecidableEq

/-- Python dict assignment `d[k] = v` on an insertion-ordered association
list: overwrite in place when the key is present, else append. -/
def dictInsert (d : List (String × Result)) (k : String) (v : Result) : List (String × Result) :=
  if (d.map Prod.fst).contains k then
    d.map (fun p => if p.1 = k then (k, v) else p)
  else d ++ [(k, v)]

/-- One iteration of the `for key, suffix, command in comps` loop of
`test_file` (source lines 113-140): run the tool, `continue` when the binary
was missing, `continue` when the output cannot be statted, `continue` when it
cannot be unlinked, and only then record `(t1 - t0, input_size, output_size)`
under the tool's key. An uncaught exception aborts the whole call. -/
def toolStep (filename : String) (acc : List (String × Result)) (c : Comp) (env : ToolEnv) :
    Except String (List (String × Result)) :=
  match runOne filename c env.run with
  | .error e => .error e
  | .ok none => .ok acc
  | .ok (some _) =>
    match env.statOutput with
    | none => .ok acc
    | some outSize =>
      if env.unlink then
        .ok (dictInsert acc c.key ⟨env.t1 - env.t0, env.statInput, outSize⟩)
      else .ok acc

/-- The loop of `test_file` over the tool table, one `ToolEnv` per entry. -/
def testFileLoop (filename : String) :
    List (Comp × ToolEnv) → List (String × Result) → Except String (List (String × Result))
  | [], acc => .ok acc
  | (c, env) :: rest, acc =>
    match toolStep filename acc c env with
    | .error e => .error e
    | .ok acc2 => testFileLoop filename rest acc2

/-- `test_file` (source lines 106-141): the results dictionary built by
running every tool of the table against the (temporary copy of the) file. -/
def testFile (filename : String) (envs : List (Comp × ToolEnv)) :
    Except String (List (String × Result)) :=
  testFileLoop filename envs []

/-- `roundup` (source lines 149-150): `(x + b - 1) // b * b`, block size
defaulting to 4096. -/
def roundup (x : Nat) (b : Nat := 4096) : Nat :=
  (x + b - 1) / b * b

/-- The `Stats` dataclass (source lines 152-163). The ratio fields start at
`float("inf")` / `float("-inf")` in the source; here `none` stands for that
seed state in which no finite ratio has been accumulated yet. -/
structure Stats where
  total_files_count : Nat := 0
  total_input_size : Nat := 0
  total_input_size_4k : Nat := 0
  total_compressed_size : Nat := 0
  total_compressed_size_4k : Nat := 0
  total_time : ℚ := 0
  min_ratio : Option ℚ := none
  max_ratio : Option ℚ := none
  min_ratio4k : Option ℚ := none
  max_ratio4k : Option ℚ := none
deriving DecidableEq

/-- Python `min` against a possibly-still-infinite accumulator:
`min(float("inf"), r) = r`. -/
def updateMin (o : Option ℚ) (r : ℚ) : Option ℚ :=
  match o with
  | none => some r
  | some m => some (min m r)

/-- Python `max` against a possibly-still-infinite accumulator:
`max(float("-inf"), r) = r`. -/
def updateMax (o : Option ℚ) (r : ℚ) : Option ℚ :=
  match o with
  | none => some r
  | some m => some (max m r)

/-- The aggregation loop body of `main` (source lines 246-267): accumulate one
`(time, input_size, output_size)` result into a key's `Stats`. The ratio
bounds are only touched when the input size is nonzero (`if stat[1]:`). -/
def updateStats (s : Stats) (st : Result) : Stats :=
  { total_files_count := s.total_files_count + 1
    total_input_size := s.total_input_size + st.inSize
    total_input_size_4k := s.total_input_size_4k + roundup st.inSize
    total_compressed_size := s.total_compressed_size + st.outSize
    total_compressed_size_4k := s.total_compressed_size_4k + roundup st.outSize
    total_time := s.total_time + st.time
    min_ratio := if st.inSize ≠ 0 then
        updateMin s.min_ratio ((st.outSize : ℚ) / (st.inSize : ℚ))
      else s.min_ratio
    max_ratio := if st.inSize ≠ 0 then
        updateMax s.max_ratio ((st.outSize : ℚ) / (st.inSize : ℚ))
      else s.max_ratio
    min_ratio4k := if st.inSize ≠ 0 then
        updateMin s.min_ratio4k ((roundup st.outSize : ℚ) / (roundup st.inSize : ℚ))
      else s.min_ratio4k
    max_ratio4k := if st.inSize ≠ 0 then
        updateMax s.max_ratio4k ((roundup st.outSize : ℚ) / (roundup st.inSize : ℚ))
      else s.max_ratio4k }

/-- One step of the aggregation loop on the `stats` defaultdict, viewed as a
total map from keys to `Stats` (every key starts from the dataclass
defaults): `stats[key]` is updated, all other keys keep their value. -/
def aggStep (f : String → Stats) (kr : String × Result) : String → Stats :=
  fun k => if k = kr.1 then updateStats (f k) kr.2 else f k

/-- The aggregation of `main` over the whole `(key, stat)` stream produced by
`process_iterable`, as the final content of the `stats` defaultdict. -/
def aggregate (rs : List (String × Result)) : String → Stats :=
  rs.foldl aggStep (fun _ => {})

/-- The numeric cells of one printed table row (source lines 276-286): the
ratio percentage, the block-rounded ratio percentage, and the speed in
MiB/s. -/
structure RowNums where
  ratio_percent : ℚ
  ratio4k_percent : ℚ
  speed_mib : ℚ
deriving DecidableEq

/-- The computation of the numeric cells of a key's table row (source lines
276-286). -/
def makeRow (s : Stats) : RowNums :=
  { ratio_percent := (s.total_compressed_size : ℚ) / (s.total_input_size : ℚ) * 100
    ratio4k_percent := (s.total_compressed_size_4k : ℚ) / (s.total_input_size_4k : ℚ) * 100
    speed_mib := (s.total_input_size : ℚ) / s.total_time / 1024 / 1024 }

/-- The PATH loop of `find_exeuctable` (source lines 64-69): the first
directory whose join with `x` is an existing regular file. -/
def searchDirs (isFile : String → Bool) (x : String) : List String → Option String
  | [] => none
  | d :: rest =>
    if isFile (pyJoin d x) then some (pyJoin d x) else searchDirs isFile x rest

/-- `find_exeuctable` (source lines 59-73), with `os.path.isfile` and the PATH
environment variable passed in explicitly: empty names resolve to nothing;
names starting with a slash or `./` are only checked literally; anything else
is searched for along the colon-split PATH. -/
def find_exeuctable (isFile : String → Bool) (pathEnv : String) (x : String) : Option String :=
  if x = "" then none
  else if headIs x '/' || pyStartsWith x "./" then
    if isFile x then some x else none
  else
    searchDirs isFile x (pySplit pathEnv ':')

/-- The two filtering passes of `main` over the tool table (source lines
196-206): keep the entries whose key the `--methods` regular expression
matches, exit with status 1 if none is left, then keep the entries whose
first command word `find_exeuctable` resolves, and exit with status 1 if none
is left. The regular-expression match is abstracted as the predicate
`matching`. (`comp[2][0]` is total in the source because every table entry
has a nonempty command; `headD ""` renders it.) -/
def mainFilter (matching : String → Bool) (isFile : String → Bool) (pathEnv : String) :
    Except Nat (List Comp) :=
  let c1 := comps.filter (fun c => matching c.key)
  if c1.isEmpty then .error 1
  else
    let c2 := c1.filter (fun c => (find_exeuctable isFile pathEnv (c.command.headD "")).isSome)
    if c2.isEmpty then .error 1
    else .ok c2

/-- How a run of `main` ends, as far as the filtering phase is concerned:
either `sys.exit(code)` before any file is touched (no file processed), or
the processing loop runs over the requested files with the selected tools. -/
inductive MainPhase where
  | exited (code : Nat) (filesProcessed : List String)
  | ran (selected : List Comp) (filesProcessed : List String)
deriving DecidableEq

/-- The control flow of `main` around the filtering phase (source lines
196-267): on a filtering failure the program exits before the file loop, so
no file is processed; otherwise every requested file is processed with the
selected tools. -/
def mainModel (matching : String → Bool) (isFile : String → Bool) (pathEnv : String)
    (files : List String) : MainPhase :=
  match mainFilter matching isFile pathEnv with
  | .error code => .exited code []
  | .ok cs => .ran cs files

/-- The results recorded for key `k`, in order (spec side, for the
aggregation claims): the stream entries carrying that key. -/
def keyResults (rs : List (String × Result)) (k : String) : List Result :=
  (rs.filter (fun p => decide (p.1 = k))).map (fun p => p.2)

/-- The compression ratios of the results whose input size is nonzero
(spec side). -/
def ratioList (l : List Result) : List ℚ :=
  (l.filter (fun r => decide (r.inSize ≠ 0))).map (fun r => (r.outSize : ℚ) / (r.inSize : ℚ))

/-- The block-rounded compression ratios of the results whose input size is
nonzero (spec side). -/
def ratioList4k (l : List Result) : List ℚ :=
  (l.filter (fun r => decide (r.inSize ≠ 0))).map
    (fun r => (roundup r.outSize : ℚ) / (roundup r.inSize : ℚ))

/-- The minimum of a list of rationals, `none` when empty (spec side). -/
def listMin : List ℚ → Option ℚ
  | [] => none
  | a :: l =>
    match listMin l with
    | none => some a
    | some m => some (min a m)

/-- The maximum of a list of rationals, `none` when empty (spec side). -/
def listMax : List ℚ → Option ℚ
  | [] => none
  | a :: l =>
    match listMax l with
    | none => some a
    | some m => some (max a m)

/-- Pointwise combination of two optional minima (helper). -/
def optMin : Option ℚ → Option ℚ → Option ℚ
  | none, b => b
  | some a, none => some a
  | some a, some b => some (min a b)

/-- Pointwise combination of two optional maxima (helper). -/
def optMax : Option ℚ → Option ℚ → Option ℚ
  | none, b => b
  | some a, none => some a
  | some a, some b => some (max a b)

/-- The first tool-table entry, used as a concrete instantiation vector. -/
def cpComp : Comp := ⟨"cp", ".copy", ["cp", "FILE", "FILE.copy"]⟩

/-- A concrete per-tool environment in which the binary is missing. -/
def envMissing : ToolEnv := ⟨10, 0, 1, ⟨UnlinkRes.ok, SubRes.fileNotFound⟩, none, false⟩

/-- A concrete per-tool environment in which everything succeeds. -/
def envSuccess : ToolEnv := ⟨10, 0, 1, ⟨UnlinkRes.ok, SubRes.completed 0⟩, some 4, true⟩

/-- A concrete per-tool environment in which the run succeeds but the
expected output file does not exist. -/
def envNoOutput : ToolEnv := ⟨10, 0, 1, ⟨UnlinkRes.ok, SubRes.completed 0⟩, none, true⟩

/- ===================== Theorems ===================== -/

theorem substFile_eq_spec (fn : String) : ∀ l, substFile fn l = substFileSpec fn l := by
  intro l
  induction l with
  | nil => rfl
  | cons a l ih => simpa [substFile, substFileSpec] using ih

/-- C1: for every filename and tool entry, `run_one` builds the command by
replacing, in each argument, first FILE_OR_DIR and then FILE with the
filename; if no argument of the built command contains BASE the expected
output path is `filename + suffix`, and otherwise BASE is replaced with
`filename + "_output_" + key` and the expected output path is
`filename + "_output_" + key + suffix`. -/
theorem run_one_builds_command_from_template (fn : String) (c : Comp) :
    runOneBuild fn c = runOneBuildSpec fn c := by
  simp only [runOneBuild, runOneBuildSpec, substFile_eq_spec]

theorem le_roundup (x b : Nat) (hb : 0 < b) : x ≤ roundup x b := by
  unfold roundup
  rcases Nat.eq_zero_or_pos x with hx | hx
  · simp [hx]
  · have hx1 : x + b - 1 = (x - 1) + b := by omega
    rw [hx1, Nat.add_div_right _ hb, Nat.succ_mul]
    have h1 : (x - 1) / b * b + (x - 1) % b = x - 1 := Nat.div_add_mod' (x - 1) b
    have h2 : (x - 1) % b < b := Nat.mod_lt _ hb
    omega

theorem roundup_dvd (x b : Nat) : b ∣ roundup x b :=
  ⟨(x + b - 1) / b, Nat.mul_comm _ _⟩

theorem roundup_le_of_dvd (x b m : Nat) (hb : 0 < b) (hdvd : b ∣ m) (hle : x ≤ m) :
    roundup x b ≤ m := by
  obtain ⟨k, rfl⟩ := hdvd
  unfold roundup
  have hq : (x + b - 1) / b ≤ k := by
    have h1 : x + b - 1 ≤ b * k + (b - 1) := by omega
    exact (Nat.div_le_iff_le_mul_add_pred hb).mpr h1
  calc (x + b - 1) / b * b ≤ k * b := Nat.mul_le_mul_right b hq
    _ = b * k := Nat.mul_comm _ _

/-- C3: `roundup x b = (x + b - 1) // b * b` is the least multiple of `b` at
least `x`, and the aggregation step accumulates `roundup` (at the default
block size 4096) of the input and compressed sizes into the 4k totals. -/
theorem roundup_least_multiple_and_totals (x b : Nat) (hb : 0 < b) :
    b ∣ roundup x b ∧ x ≤ roundup x b ∧
    (∀ m, b ∣ m → x ≤ m → roundup x b ≤ m) ∧
    (∀ (s : Stats) (st : Result),
      (updateStats s st).total_input_size_4k = s.total_input_size_4k + roundup st.inSize ∧
      (updateStats s st).total_compressed_size_4k
        = s.total_compressed_size_4k + roundup st.outSize) := by
  refine ⟨roundup_dvd x b, le_roundup x b hb, fun m hd hl => roundup_le_of_dvd x b m hb hd hl,
    fun s st => ⟨rfl, rfl⟩⟩

/-- Witness for C3 at `x = 5`, `b = 4`. -/
theorem roundup_least_multiple_and_totals_witness :
    4 ∣ roundup 5 4 ∧ 5 ≤ roundup 5 4 ∧
    (∀ m, 4 ∣ m → 5 ≤ m → roundup 5 4 ≤ m) ∧
    (∀ (s : Stats) (st : Result),
      (updateStats s st).total_input_size_4k = s.total_input_size_4k + roundup st.inSize ∧
      (updateStats s st).total_compressed_size_4k
        = s.total_compressed_size_4k + roundup st.outSize) :=
  roundup_least_multiple_and_totals 5 4 (by decide)

theorem keyResults_cons (p : String × Result) (rs : List (String × Result)) (k : String) :
    keyResults (p :: rs) k
      = if p.1 = k then p.2 :: keyResults rs k else keyResults rs k := by
  by_cases h : p.1 = k <;> simp [keyResults, List.filter_cons, h]

theorem aggregate_eq_foldKey :
    ∀ (rs : List (String × Result)) (f : String → Stats) (k : String),
      (rs.foldl aggStep f) k = (keyResults rs k).foldl updateStats (f k) := by
  intro rs
  induction rs with
  | nil => intro f k; rfl
  | cons p rs ih =>
    intro f k
    rw [List.foldl_cons, ih, keyResults_cons]
    by_cases h : p.1 = k
    · rw [if_pos h, List.foldl_cons]
      have hstep : aggStep f p k = updateStats (f k) p.2 := by
        simp [aggStep, if_pos h.symm]
      rw [hstep]
    · rw [if_neg h]
      have hstep : aggStep f p k = f k := by
        simp [aggStep]
        intro h2
        exact absurd h2.symm h
      rw [hstep]

theorem foldl_updateStats (l : List Result) :
    ∀ s : Stats, l.foldl updateStats s =
      { total_files_count := s.total_files_count + l.length
        total_input_size := s.total_input_size + (l.map Result.inSize).sum
        total_input_size_4k := s.total_input_size_4k + (l.map (fun r => roundup r.inSize)).sum
        total_compressed_size := s.total_compressed_size + (l.map Result.outSize).sum
        total_compressed_size_4k :=
          s.total_compressed_size_4k + (l.map (fun r => roundup r.outSize)).sum
        total_time := s.total_time + (l.map Result.time).sum
        min_ratio := (ratioList l).foldl updateMin s.min_ratio
        max_ratio := (ratioList l).foldl updateMax s.max_ratio
        min_ratio4k := (ratioList4k l).foldl updateMin s.min_ratio4k
        max_ratio4k := (ratioList4k l).foldl updateMax s.max_ratio4k } := by
  induction l with
  | nil =>
    intro s
    cases s
    simp [ratioList, ratioList4k]
  | cons r l ih =>
    intro s
    rw [List.foldl_cons, ih]
    by_cases h : r.inSize = 0 <;>
      simp [updateStats, ratioList, ratioList4k, List.filter_cons, h, Stats.mk.injEq] <;>
      and_intros <;> first | omega | ring

theorem updateMin_eq_optMin (o : Option ℚ) (r : ℚ) : updateMin o r = optMin o (some r) := by
  cases o <;> rfl

theorem updateMax_eq_optMax (o : Option ℚ) (r : ℚ) : updateMax o r = optMax o (some r) := by
  cases o <;> rfl

theorem optMin_assoc (a b c : Option ℚ) : optMin (optMin a b) c = optMin a (optMin b c) := by
  cases a <;> cases b <;> cases c <;> simp [optMin, min_assoc]

theorem optMax_assoc (a b c : Option ℚ) : optMax (optMax a b) c = optMax a (optMax b c) := by
  cases a <;> cases b <;> cases c <;> simp [optMax, max_assoc]

theorem listMin_eq_optMin (a : ℚ) (l : List ℚ) :
    listMin (a :: l) = optMin (some a) (listMin l) := by
  cases hl : listMin l <;> simp [listMin, hl, optMin]

theorem listMax_eq_optMax (a : ℚ) (l : List ℚ) :
    listMax (a :: l) = optMax (some a) (listMax l) := by
  cases hl : listMax l <;> simp [listMax, hl, optMax]

theorem foldl_updateMin_eq (l : List ℚ) :
    ∀ o : Option ℚ, l.foldl updateMin o = optMin o (listMin l) := by
  induction l with
  | nil => intro o; cases o <;> rfl
  | cons a l ih =>
    intro o
    rw [List.foldl_cons, ih, updateMin_eq_optMin, optMin_assoc, listMin_eq_optMin]

theorem foldl_updateMax_eq (l : List ℚ) :
    ∀ o : Option ℚ, l.foldl updateMax o = optMax o (listMax l) := by
  induction l with
  | nil => intro o; cases o <;> rfl
  | cons a l ih =>
    intro o
    rw [List.foldl_cons, ih, updateMax_eq_optMax, optMax_assoc, listMax_eq_optMax]

theorem aggregate_key (rs : List (String × Result)) (k : String) :
    aggregate rs k = (keyResults rs k).foldl updateStats {} :=
  aggregate_eq_foldKey rs (fun _ => {}) k

/-- C4: for every key, aggregating the `(key, (time, input_size, output_size))`
stream increments that key's file count once per matching result, adds the
input size, output size and time into the respective totals, and takes
`min_ratio` / `max_ratio` as the minimum / maximum of
`output_size / input_size` over exactly the matching results with nonzero
input size (zero-size inputs never touch the ratio bounds). -/
theorem aggregate_accumulates_per_key (rs : List (String × Result)) (k : String) :
    (aggregate rs k).total_files_count = (keyResults rs k).length ∧
    (aggregate rs k).total_input_size = ((keyResults rs k).map Result.inSize).sum ∧
    (aggregate rs k).total_compressed_size = ((keyResults rs k).map Result.outSize).sum ∧
    (aggregate rs k).total_time = ((keyResults rs k).map Result.time).sum ∧
    (aggregate rs k).min_ratio = listMin (ratioList (keyResults rs k)) ∧
    (aggregate rs k).max_ratio = listMax (ratioList (keyResults rs k)) := by
  rw [aggregate_key, foldl_updateStats]
  simp [foldl_updateMin_eq, foldl_updateMax_eq, optMin, optMax]

/-- C5: for every tool key, the printed table row reports the compression
ratio as `total_compressed_size / total_input_size` (as a percentage), the
block-rounded ratio as `total_compressed_size_4k / total_input_size_4k`, and
the throughput as `total_input_size / total_time` scaled to MiB/s; stated
both against the `Stats` fields and against the accumulated sums they hold. -/
theorem row_reports_ratio_and_speed (rs : List (String × Result)) (k : String) :
    (makeRow (aggregate rs k)).ratio_percent
      = ((aggregate rs k).total_compressed_size : ℚ)
        / ((aggregate rs k).total_input_size : ℚ) * 100 ∧
    (makeRow (aggregate rs k)).ratio4k_percent
      = ((aggregate rs k).total_compressed_size_4k : ℚ)
        / ((aggregate rs k).total_input_size_4k : ℚ) * 100 ∧
    (makeRow (aggregate rs k)).speed_mib
      = ((aggregate rs k).total_input_size : ℚ) / (aggregate rs k).total_time / 1024 / 1024 ∧
    (makeRow (aggregate rs k)).ratio_percent
      = (((keyResults rs k).map Result.outSize).sum : ℚ)
        / (((keyResults rs k).map Result.inSize).sum : ℚ) * 100 ∧
    (makeRow (aggregate rs k)).ratio4k_percent
      = (((keyResults rs k).map (fun r => roundup r.outSize)).sum : ℚ)
        / (((keyResults rs k).map (fun r => roundup r.inSize)).sum : ℚ) * 100 ∧
    (makeRow (aggregate rs k)).speed_mib
      = (((keyResults rs k).map Result.inSize).sum : ℚ)
        / ((keyResults rs k).map Result.time).sum / 1024 / 1024 := by
  refine ⟨rfl, rfl, rfl, ?_, ?_, ?_⟩ <;>
    rw [aggregate_key, foldl_updateStats] <;> simp [makeRow]

theorem listMin_le_listMax (l : List ℚ) (h : l ≠ []) :
    ∃ a b, listMin l = some a ∧ listMax l = some b ∧ a ≤ b := by
  induction l with
  | nil => exact absurd rfl h
  | cons x l ih =>
    by_cases hl : l = []
    · subst hl
      exact ⟨x, x, rfl, rfl, le_refl x⟩
    · obtain ⟨a, b, ha, hb, hab⟩ := ih hl
      refine ⟨min x a, max x b, ?_, ?_, ?_⟩
      · simp [listMin, ha]
      · simp [listMax, hb]
      · calc min x a ≤ a := min_le_right _ _
          _ ≤ b := hab
          _ ≤ max x b := le_max_right _ _

theorem filter_nonzero_ne_nil {l : List Result} (h : ∃ r ∈ l, r.inSize ≠ 0) :
    l.filter (fun r => decide (r.inSize ≠ 0)) ≠ [] := by
  obtain ⟨r, hr, hne⟩ := h
  exact List.ne_nil_of_mem (List.mem_filter.mpr ⟨hr, by simpa using hne⟩)

/-- C9: after aggregating any stream, each key's `Stats` satisfies
`total_input_size_4k ≥ total_input_size` and
`total_compressed_size_4k ≥ total_compressed_size`, and whenever at least one
result with nonzero input size has been accumulated for the key, the minimum
ratio is at most the maximum ratio, both in the plain and in the
block-rounded variant. -/
theorem aggregate_invariants (rs : List (String × Result)) (k : String) :
    (aggregate rs k).total_input_size ≤ (aggregate rs k).total_input_size_4k ∧
    (aggregate rs k).total_compressed_size ≤ (aggregate rs k).total_compressed_size_4k ∧
    ((∃ r ∈ keyResults rs k, r.inSize ≠ 0) →
      ∃ a b, (aggregate rs k).min_ratio = some a ∧
        (aggregate rs k).max_ratio = some b ∧ a ≤ b) ∧
    ((∃ r ∈ keyResults rs k, r.inSize ≠ 0) →
      ∃ a b, (aggregate rs k).min_ratio4k = some a ∧
        (aggregate rs k).max_ratio4k = some b ∧ a ≤ b) := by
  rw [aggregate_key, foldl_updateStats]
  refine ⟨?_, ?_, ?_, ?_⟩
  · simpa using List.sum_le_sum (fun r _ => le_roundup r.inSize 4096 (by norm_num))
  · simpa using List.sum_le_sum (fun r _ => le_roundup r.outSize 4096 (by norm_num))
  · intro h
    have hne : ratioList (keyResults rs k) ≠ [] := by
      simpa [ratioList] using filter_nonzero_ne_nil h
    obtain ⟨a, b, ha, hb, hab⟩ := listMin_le_listMax _ hne
    exact ⟨a, b, by simp [foldl_updateMin_eq, optMin, ha], by
      simp [foldl_updateMax_eq, optMax, hb], hab⟩
  · intro h
    have hne : ratioList4k (keyResults rs k) ≠ [] := by
      simpa [ratioList4k] using filter_nonzero_ne_nil h
    obtain ⟨a, b, ha, hb, hab⟩ := listMin_le_listMax _ hne
    exact ⟨a, b, by simp [foldl_updateMin_eq, optMin, ha], by
      simp [foldl_updateMax_eq, optMax, hb], hab⟩

/-- C2: when the tool's binary is not installed (`subprocess.run` raises
`FileNotFoundError`), `run_one` returns `None` and `test_file` skips the tool
for the current file, adding no entry and continuing with the remaining
tools; and this is the only subprocess failure that is caught: `run_one`
returns `None` exactly then, and any other exception from `subprocess.run`
propagates. -/
theorem run_one_missing_binary_skipped (fn : String) (c : Comp) (e : ToolEnv)
    (rest : List (Comp × ToolEnv)) (acc : List (String × Result))
    (hpre : e.run.preUnlink = UnlinkRes.ok ∨ e.run.preUnlink = UnlinkRes.fileNotFound) :
    (e.run.subprocess = SubRes.fileNotFound →
      runOne fn c e.run = Except.ok none ∧
      testFileLoop fn ((c, e) :: rest) acc = testFileLoop fn rest acc) ∧
    (runOne fn c e.run = Except.ok none → e.run.subprocess = SubRes.fileNotFound) ∧
    (∀ msg, e.run.subprocess = SubRes.raised msg → runOne fn c e.run = Except.error msg) := by
  rcases hpre with hpre | hpre <;>
  · refine ⟨?_, ?_, ?_⟩
    · intro hs
      exact ⟨by simp [runOne, hpre, hs], by simp [testFileLoop, toolStep, runOne, hpre, hs]⟩
    · intro h
      cases hsub : e.run.subprocess <;> simp [runOne, hpre, hsub] at h ⊢
    · intro msg hs
      simp [runOne, hpre, hs]

/-- Witness for C2: the `cp` entry against an environment whose subprocess
call raises `FileNotFoundError`. -/
theorem run_one_missing_binary_skipped_witness :
    runOne "f" cpComp envMissing.run = Except.ok none ∧
    testFileLoop "f" [(cpComp, envMissing)] [] = testFileLoop "f" [] [] :=
  (run_one_missing_binary_skipped "f" cpComp envMissing [] [] (Or.inl rfl)).1 rfl

/-- C6: for every file and every tool whose invocation succeeds and whose
output file exists, `test_file` records under the tool's key the triple of
the elapsed time `t1 - t0` (the monotonic-clock readings around `run_one`),
the input size statted before the run, and the output size statted after the
run. -/
theorem test_file_records_time_and_sizes (fn : String) (c : Comp) (e : ToolEnv)
    (rest : List (Comp × ToolEnv)) (acc : List (String × Result)) (code : Int) (sz : Nat)
    (hpre : e.run.preUnlink = UnlinkRes.ok ∨ e.run.preUnlink = UnlinkRes.fileNotFound)
    (hsub : e.run.subprocess = SubRes.completed code)
    (hstat : e.statOutput = some sz)
    (hunl : e.unlink = true) :
    runOne fn c e.run = Except.ok (some (runOneBuild fn c).output) ∧
    testFileLoop fn ((c, e) :: rest) acc
      = testFileLoop fn rest (dictInsert acc c.key ⟨e.t1 - e.t0, e.statInput, sz⟩) := by
  rcases hpre with hpre | hpre <;>
    exact ⟨by simp [runOne, hpre, hsub],
      by simp [testFileLoop, toolStep, runOne, hpre, hsub, hstat, hunl]⟩

/-- Witness for C6: the `cp` entry against an environment in which the run,
the output stat and the unlink all succeed. -/
theorem test_file_records_time_and_sizes_witness :
    runOne "f" cpComp envSuccess.run = Except.ok (some (runOneBuild "f" cpComp).output) ∧
    testFileLoop "f" [(cpComp, envSuccess)] []
      = testFileLoop "f" []
          (dictInsert [] cpComp.key ⟨envSuccess.t1 - envSuccess.t0, envSuccess.statInput, 4⟩) :=
  test_file_records_time_and_sizes "f" cpComp envSuccess [] [] 0 4 (Or.inl rfl) rfl rfl rfl

theorem dictInsert_mem {d : List (String × Result)} {k a : String} {v b : Result}
    (h : (a, b) ∈ dictInsert d k v) : (a, b) ∈ d ∨ (a = k ∧ b = v) := by
  unfold dictInsert at h
  by_cases hc : (d.map Prod.fst).contains k
  · rw [if_pos hc] at h
    obtain ⟨p, hp, hpe⟩ := List.mem_map.mp h
    by_cases hk : p.1 = k
    · rw [if_pos hk] at hpe
      right
      exact ⟨(congrArg Prod.fst hpe).symm, (congrArg Prod.snd hpe).symm⟩
    · rw [if_neg hk] at hpe
      left
      rw [← hpe]
      exact hp
  · rw [if_neg hc] at h
    rcases List.mem_append.mp h with h1 | h1
    · left; exact h1
    · right
      simp at h1
      exact h1

theorem runOne_ok_some {fn : String} {c : Comp} {env : RunEnv} {out : String}
    (h : runOne fn c env = Except.ok (some out)) :
    ∃ code, env.subprocess = SubRes.completed code := by
  cases hpre : env.preUnlink <;> cases hsub : env.subprocess <;>
    simp [runOne, hpre, hsub] at h <;> exact ⟨_, rfl⟩

theorem testFileLoop_mem :
    ∀ (envs : List (Comp × ToolEnv)) (fn : String) (acc res : List (String × Result))
      (k : String) (v : Result),
      testFileLoop fn envs acc = Except.ok res → (k, v) ∈ res →
      (k, v) ∈ acc ∨ ∃ c2 e2, (c2, e2) ∈ envs ∧ c2.key = k ∧
        (∃ code, e2.run.subprocess = SubRes.completed code) ∧
        (∃ sz, e2.statOutput = some sz) ∧ e2.unlink = true := by
  intro envs
  induction envs with
  | nil =>
    intro fn acc res k v h hm
    left
    simp [testFileLoop] at h
    rw [h]
    exact hm
  | cons pe rest ih =>
    intro fn acc res k v h hm
    obtain ⟨c, e⟩ := pe
    cases hrun : runOne fn c e.run with
    | error msg => simp [testFileLoop, toolStep, hrun] at h
    | ok o =>
      cases o with
      | none =>
        have h2 : testFileLoop fn rest acc = Except.ok res := by
          simpa [testFileLoop, toolStep, hrun] using h
        rcases ih fn acc res k v h2 hm with hl | ⟨c2, e2, hmem, hrest⟩
        · left; exact hl
        · right; exact ⟨c2, e2, List.mem_cons_of_mem _ hmem, hrest⟩
      | some out =>
        cases hstat : e.statOutput with
        | none =>
          have h2 : testFileLoop fn rest acc = Except.ok res := by
            simpa [testFileLoop, toolStep, hrun, hstat] using h
          rcases ih fn acc res k v h2 hm with hl | ⟨c2, e2, hmem, hrest⟩
          · left; exact hl
          · right; exact ⟨c2, e2, List.mem_cons_of_mem _ hmem, hrest⟩
        | some sz =>
          cases hunl : e.unlink
          · have h2 : testFileLoop fn rest acc = Except.ok res := by
              simpa [testFileLoop, toolStep, hrun, hstat, hunl] using h
            rcases ih fn acc res k v h2 hm with hl | ⟨c2, e2, hmem, hrest⟩
            · left; exact hl
            · right; exact ⟨c2, e2, List.mem_cons_of_mem _ hmem, hrest⟩
          · have h2 : testFileLoop fn rest
                (dictInsert acc c.key ⟨e.t1 - e.t0, e.statInput, sz⟩) = Except.ok res := by
              simpa [testFileLoop, toolStep, hrun, hstat, hunl] using h
            rcases ih fn _ res k v h2 hm with hl | ⟨c2, e2, hmem, hrest⟩
            · rcases dictInsert_mem hl with hd | ⟨hk, _⟩
              · left; exact hd
              · right
                exact ⟨c, e, List.mem_cons_self _ _, hk.symm,
                  runOne_ok_some hrun, ⟨sz, hstat⟩, hunl⟩
            · right; exact ⟨c2, e2, List.mem_cons_of_mem _ hmem, hrest⟩

/-- C10: if after a successful invocation the expected output cannot be
statted (`FileNotFoundError`) or cannot be unlinked, `test_file` adds no
entry for the tool and continues with the next tool, leaving the results
accumulated so far unchanged; consequently a key appears in a file's results
only if the run, the size measurement and the cleanup all succeeded. -/
theorem test_file_records_only_full_success (fn : String) (envs : List (Comp × ToolEnv))
    (c : Comp) (e : ToolEnv) (rest : List (Comp × ToolEnv)) (acc : List (String × Result)) :
    (∀ out, runOne fn c e.run = Except.ok (some out) → e.statOutput = none →
      testFileLoop fn ((c, e) :: rest) acc = testFileLoop fn rest acc) ∧
    (∀ out, runOne fn c e.run = Except.ok (some out) → e.unlink = false →
      testFileLoop fn ((c, e) :: rest) acc = testFileLoop fn rest acc) ∧
    (∀ res k v, testFile fn envs = Except.ok res → (k, v) ∈ res →
      ∃ c2 e2, (c2, e2) ∈ envs ∧ c2.key = k ∧
        (∃ code, e2.run.subprocess = SubRes.completed code) ∧
        (∃ sz, e2.statOutput = some sz) ∧ e2.unlink = true) := by
  refine ⟨?_, ?_, ?_⟩
  · intro out hrun hstat
    simp [testFileLoop, toolStep, hrun, hstat]
  · intro out hrun hunl
    cases hstat : e.statOutput with
    | none => simp [testFileLoop, toolStep, hrun, hstat]
    | some sz => simp [testFileLoop, toolStep, hrun, hstat, hunl]
  · intro res k v h hm
    rcases testFileLoop_mem envs fn [] res k v h hm with hl | hr
    · simp at hl
    · exact hr

/-- Witness for C10: the `cp` entry against an environment in which the run
succeeds but the expected output file does not exist. -/
theorem test_file_records_only_full_success_witness :
    testFileLoop "f" [(cpComp, envNoOutput)] [] = testFileLoop "f" [] [] :=
  (test_file_records_only_full_success "f" [] cpComp envNoOutput [] []).1 "f.copy" rfl rfl

theorem searchDirs_eq_none (isFile : String → Bool) (x : String) :
    ∀ dirs, searchDirs isFile x dirs = none ↔ ∀ d ∈ dirs, isFile (pyJoin d x) = false := by
  intro dirs
  induction dirs with
  | nil => simp [searchDirs]
  | cons d dirs ih =>
    by_cases hf : isFile (pyJoin d x)
    · simp [searchDirs, hf]
    · have hf' : isFile (pyJoin d x) = false := by simpa using hf
      simp [searchDirs, hf', ih]

theorem searchDirs_eq_some (isFile : String → Bool) (x : String) :
    ∀ dirs p, searchDirs isFile x dirs = some p →
      ∃ pre d post, dirs = pre ++ d :: post ∧ p = pyJoin d x ∧ isFile p = true ∧
        ∀ d2 ∈ pre, isFile (pyJoin d2 x) = false := by
  intro dirs
  induction dirs with
  | nil => intro p h; simp [searchDirs] at h
  | cons d dirs ih =>
    intro p h
    by_cases hf : isFile (pyJoin d x)
    · simp [searchDirs, hf] at h
      exact ⟨[], d, dirs, rfl, h.symm, h ▸ hf, by simp⟩
    · have hf' : isFile (pyJoin d x) = false := by simpa using hf
      have h2 : searchDirs isFile x dirs = some p := by simpa [searchDirs, hf'] using h
      obtain ⟨pre, d1, post, hdirs, hp, hfile, hpre⟩ := ih p h2
      refine ⟨d :: pre, d1, post, by simp [hdirs], hp, hfile, ?_⟩
      intro d2 hd2
      rcases List.mem_cons.mp hd2 with h3 | h3
      · rw [h3]; exact hf'
      · exact hpre d2 h3

/-- C8: `find_exeuctable` returns `None` on the empty string; on a name
starting with `/` or `./` it returns the name itself exactly when it is an
existing regular file, with no PATH search; otherwise it returns the first
directory of the colon-split PATH whose join with the name is an existing
regular file, or `None` if none is; and it never returns a path that is not
an existing file at the time of the check. -/
theorem find_exeuctable_resolution (isFile : String → Bool) (pathEnv x : String) :
    (x = "" → find_exeuctable isFile pathEnv x = none) ∧
    (x ≠ "" → (headIs x '/' || pyStartsWith x "./") = true →
      find_exeuctable isFile pathEnv x = (if isFile x then some x else none)) ∧
    (x ≠ "" → (headIs x '/' || pyStartsWith x "./") = false →
      (find_exeuctable isFile pathEnv x = none ↔
        ∀ d ∈ pySplit pathEnv ':', isFile (pyJoin d x) = false) ∧
      (∀ p, find_exeuctable isFile pathEnv x = some p →
        ∃ pre d post, pySplit pathEnv ':' = pre ++ d :: post ∧ p = pyJoin d x ∧
          isFile p = true ∧ ∀ d2 ∈ pre, isFile (pyJoin d2 x) = false)) ∧
    (∀ p, find_exeuctable isFile pathEnv x = some p → isFile p = true) := by
  refine ⟨?_, ?_, ?_, ?_⟩
  · intro h
    simp [find_exeuctable, h]
  · intro hne hsl
    simp [find_exeuctable, hne, hsl]
  · intro hne hsl
    have hfind : find_exeuctable isFile pathEnv x = searchDirs isFile x (pySplit pathEnv ':') := by
      simp [find_exeuctable, hne, hsl]
    constructor
    · rw [hfind]
      exact searchDirs_eq_none isFile x _
    · intro p hp
      exact searchDirs_eq_some isFile x _ p (hfind ▸ hp)
  · intro p hp
    by_cases hne : x = ""
    · simp [find_exeuctable, hne] at hp
    · cases hsl : (headIs x '/' || pyStartsWith x "./")
      · have h2 : searchDirs isFile x (pySplit pathEnv ':') = some p := by
          simpa [find_exeuctable, hne, hsl] using hp
        obtain ⟨pre, d, post, _, _, hfile, _⟩ := searchDirs_eq_some isFile x _ p h2
        exact hfile
      · by_cases hfx : isFile x
        · have hxp : x = p := by simpa [find_exeuctable, hne, hsl, hfx] using hp
          rw [← hxp]
          exact hfx
        · simp [find_exeuctable, hne, hsl, hfx] at hp

/-- Witness for C8: searching for `ls` along `/sbin:/bin` when only
`/bin/ls` exists. -/
theorem find_exeuctable_resolution_witness :
    (find_exeuctable (fun p => decide (p = "/bin/ls")) "/sbin:/bin" "ls" = none ↔
      ∀ d ∈ pySplit "/sbin:/bin" ':',
        (fun p => decide (p = "/bin/ls")) (pyJoin d "ls") = false) :=
  ((find_exeuctable_resolution (fun p => decide (p = "/bin/ls")) "/sbin:/bin" "ls").2.2.1
    (by decide) (by decide)).1

/-- C7: before any file is processed, `main` filters the tool table to the
entries whose key the `--methods` expression matches and whose first command
word `find_exeuctable` resolves; if either filter leaves the table empty, the
program exits with status 1 without processing any file, and otherwise the
file loop runs over all requested files with exactly the doubly-filtered,
nonempty table. -/
theorem mainFilter_eq (matching isFile : String → Bool) (pathEnv : String) :
    mainFilter matching isFile pathEnv =
      if comps.filter (fun c => matching c.key) = [] then Except.error 1
      else if (comps.filter (fun c => matching c.key)).filter
          (fun c => (find_exeuctable isFile pathEnv (c.command.headD "")).isSome) = [] then
        Except.error 1
      else Except.ok ((comps.filter (fun c => matching c.key)).filter
          (fun c => (find_exeuctable isFile pathEnv (c.command.headD "")).isSome)) := by
  unfold mainFilter
  by_cases h1 : comps.filter (fun c => matching c.key) = [] <;>
    by_cases h2 : (comps.filter (fun c => matching c.key)).filter
      (fun c => (find_exeuctable isFile pathEnv (c.command.headD "")).isSome) = [] <;>
    simp [h1, h2]

theorem main_filters_methods_then_executables (matching isFile : String → Bool)
    (pathEnv : String) (files : List String) :
    (comps.filter (fun c => matching c.key) = [] →
      mainModel matching isFile pathEnv files = MainPhase.exited 1 []) ∧
    ((comps.filter (fun c => matching c.key)).filter
        (fun c => (find_exeuctable isFile pathEnv (c.command.headD "")).isSome) = [] →
      mainModel matching isFile pathEnv files = MainPhase.exited 1 []) ∧
    (∀ cs fs, mainModel matching isFile pathEnv files = MainPhase.ran cs fs →
      cs = (comps.filter (fun c => matching c.key)).filter
          (fun c => (find_exeuctable isFile pathEnv (c.command.headD "")).isSome) ∧
      cs ≠ [] ∧ fs = files) := by
  refine ⟨?_, ?_, ?_⟩
  · intro h
    unfold mainModel
    rw [mainFilter_eq, if_pos h]
  · intro h
    unfold mainModel
    by_cases h1 : comps.filter (fun c => matching c.key) = []
    · rw [mainFilter_eq, if_pos h1]
    · rw [mainFilter_eq, if_neg h1, if_pos h]
  · intro cs fs h
    unfold mainModel at h
    rw [mainFilter_eq] at h
    by_cases h1 : comps.filter (fun c => matching c.key) = []
    · rw [if_pos h1] at h
      exact absurd h (by simp)
    · by_cases h2 : (comps.filter (fun c => matching c.key)).filter
          (fun c => (find_exeuctable isFile pathEnv (c.command.headD "")).isSome) = []
      · rw [if_neg h1, if_pos h2] at h
        exact absurd h (by simp)
      · rw [if_neg h1, if_neg h2] at h
        simp only [MainPhase.ran.injEq] at h
        exact ⟨h.1.symm, h.1 ▸ h2, h.2.symm⟩

/-- Witness for C7: an expression matching no method, and a file system in
which no executable exists. -/
theorem main_filters_methods_then_executables_witness :
    mainModel (fun _ => false) (fun _ => true) "/bin" ["a"] = MainPhase.exited 1 [] ∧
    mainModel (fun _ => true) (fun _ => false) "/bin" ["a"] = MainPhase.exited 1 [] :=
  ⟨(main_filters_methods_then_executables (fun _ => false) (fun _ => true) "/bin" ["a"]).1
      (by decide),
    (main_filters_methods_then_executables (fun _ => true) (fun _ => false) "/bin" ["a"]).2.1
      (by decide)⟩

end Compcomp
